import Mathlib

/-!
Verification of the audio-extraction and transcription core of the
res-downloader repository (Go sources `core/asr.go` and its companion
variant).  The Go functions are shallowly embedded as executable Lean
definitions: machine integers become `Nat` with explicit `% 2^w`
truncation at the points where the Go code casts, byte slices become
`List Nat`, and the HTTP environment (service responses) is passed
explicitly.
-/

set_option maxHeartbeats 1000000

/-- Embedding of `gomp4.MP4AInfo` (the fields the code reads):
`OTI` and `AudOTI` are `uint8`, `ChannelCount` is `uint16`. -/
structure MP4AInfo where
  oti : Nat
  audOTI : Nat
  channelCount : Nat
deriving DecidableEq, Repr

/-- Embedding of `makeADTSHeader(profile, freqIdx, chanConf uint8, frameLen uint16)`.
Inputs are the `Nat` values of the Go machine integers; `% 256` / `% 65536`
mark the `uint8` / `uint16` truncation points of the Go arithmetic.

```go
adtsLen := frameLen + 7
h[0] = 0xFF
h[1] = 0xF1
h[2] = (profile << 6) | (freqIdx << 2) | (chanConf >> 2)
h[3] = ((chanConf & 0x3) << 6) | byte((adtsLen>>11)&0x3)
h[4] = byte(adtsLen >> 3)
h[5] = byte(adtsLen&0x7)<<5 | 0x1F
h[6] = 0xFC
``` -/
def makeADTSHeader (profile freqIdx chanConf : Nat) (frameLen : Nat) : List Nat :=
  let adtsLen := (frameLen + 7) % 65536
  [0xFF,
   0xF1,
   ((profile <<< 6) % 256) ||| ((freqIdx <<< 2) % 256) ||| (chanConf >>> 2),
   (((chanConf &&& 0x3) <<< 6) % 256) ||| ((adtsLen >>> 11) &&& 0x3),
   (adtsLen >>> 3) % 256,
   (((adtsLen &&& 0x7) <<< 5) % 256) ||| 0x1F,
   0xFC]

/-- The 13-bit frame-length field embedded in an ADTS header: the low two
bits of byte 3, all of byte 4, and the high three bits of byte 5. -/
def adtsFrameLength (h : List Nat) : Nat :=
  (h.getD 3 0 % 4) * 2048 + (h.getD 4 0 % 256) * 8 + h.getD 5 0 / 32

/-- Embedding of the channel-configuration selection in `videoToAudio`:

```go
channelCount := uint8(2)
if audioTrack.MP4A != nil && audioTrack.MP4A.ChannelCount > 0 {
    channelCount = uint8(audioTrack.MP4A.ChannelCount)
}
``` -/
def effectiveChannelCount (mp4a : Option MP4AInfo) : Nat :=
  match mp4a with
  | none => 2
  | some info => if info.channelCount > 0 then info.channelCount % 256 else 2

/-- Two-digit uppercase hexadecimal rendering of a byte, the effect of Go's
`fmt.Sprintf("%02X", oti)` for `oti < 256`. -/
def hexUpper2 (n : Nat) : String :=
  let digit := fun k => "0123456789ABCDEF".toList.getD k '0'
  String.mk [digit (n / 16 % 16), digit (n % 16)]

/-- Embedding of the codec families distinguished by `detectAudioCodec`
(`audioCodecAAC`, `audioCodecMP3`, `audioCodecHEAAC`, `audioCodecUnknown`). -/
inductive AudioCodecType
  | aac
  | mp3
  | heaac
  | unknown
deriving DecidableEq, Repr

/-- Embedding of `detectAudioCodec(mp4aInfo *gomp4.MP4AInfo)`: maps the OTI
byte (and, for OTI 0x40, the nested AudOTI) to a codec family, an ADTS
profile, and a diagnostic label. -/
def detectAudioCodec : Option MP4AInfo → AudioCodecType × Nat × String
  | none => (.aac, 1, "aac (默认LC)")
  | some info =>
    let oti := info.oti
    if oti = 0x6B then (.mp3, 0, "mp3 (MPEG-1 Layer III)")
    else if oti = 0x69 then (.mp3, 0, "mp3 (MPEG-2 Layer III)")
    else if oti = 0x66 then (.aac, 0, "aac (MPEG-2 Main)")
    else if oti = 0x67 then (.aac, 1, "aac (MPEG-2 LC)")
    else if oti = 0x68 then (.aac, 2, "aac (MPEG-2 SSR)")
    else if oti = 0x40 then
      let audOTI := info.audOTI
      if audOTI = 1 then (.aac, 0, "aac (MPEG-4 Main)")
      else if audOTI = 2 then (.aac, 1, "aac (MPEG-4 LC)")
      else if audOTI = 3 then (.aac, 2, "aac (MPEG-4 SSR)")
      else if audOTI = 4 then (.aac, 3, "aac (MPEG-4 LTP)")
      else if audOTI = 5 then (.heaac, 1, "aac (HE-AAC/SBR - 不支持)")
      else if audOTI = 29 then (.heaac, 1, "aac (HE-AACv2/PS - 不支持)")
      else (.aac, 1, "aac (MPEG-4 AudOTI=" ++ toString audOTI ++ " (as LC))")
    else (.aac, 1, "aac (OTI=0x" ++ hexUpper2 oti ++ " as LC)")

/-- Embedding of the codec identifiers `gomedia` exposes on a `TrackInfo`
(`MP4_CODEC_AAC`, `MP4_CODEC_MP3`, `MP4_CODEC_OPUS`, and any non-audio
codec id such as H.264). -/
inductive MediaCid
  | aac
  | mp3
  | opus
  | nonAudio
deriving DecidableEq, Repr

/-- The fields of `mp4.TrackInfo` the selection loop in `core/asr.go` reads. -/
structure GoTrackInfo where
  cid : MediaCid
  trackId : Nat
deriving DecidableEq, Repr

/-- Embedding of the track-selection loop of `videoToAudio` in `core/asr.go`:

```go
var audioTrack *mp4.TrackInfo
for i := range tracks {
    t := &tracks[i]
    if t.Cid == mp4.MP4_CODEC_AAC || t.Cid == mp4.MP4_CODEC_MP3 || t.Cid == mp4.MP4_CODEC_OPUS {
        audioTrack = t
        if t.Cid == mp4.MP4_CODEC_AAC {
            break
        }
    }
}
```

`acc` is the current value of `audioTrack`. -/
def selectAudioTrackLoop (acc : Option GoTrackInfo) :
    List GoTrackInfo → Option GoTrackInfo
  | [] => acc
  | t :: ts =>
    if t.cid = .aac ∨ t.cid = .mp3 ∨ t.cid = .opus then
      if t.cid = .aac then some t else selectAudioTrackLoop (some t) ts
    else selectAudioTrackLoop acc ts

/-- The selection loop started from `audioTrack = nil`. -/
def selectAudioTrack (tracks : List GoTrackInfo) : Option GoTrackInfo :=
  selectAudioTrackLoop none tracks

/-- Track codecs in the `abema/go-mp4` variant: the loop there only tests
`t.Codec == gomp4.CodecMP4A`. -/
inductive AbemaCodec
  | mp4a
  | avc
  | unrecognized
deriving DecidableEq, Repr

/-- The fields of `gomp4.Track` the selection loop in the companion variant
reads. -/
structure AbemaTrack where
  codec : AbemaCodec
  trackId : Nat
deriving DecidableEq, Repr

/-- Embedding of the track-selection loop of `videoToAudio` in the
`abema/go-mp4` variant: first track whose codec is `CodecMP4A`. -/
def findMp4aTrack : List AbemaTrack → Option AbemaTrack
  | [] => none
  | t :: ts => if t.codec = .mp4a then some t else findMp4aTrack ts

/-- Bool predicate: the track's codec id is `MP4_CODEC_AAC`. -/
def isAacTrack (t : GoTrackInfo) : Bool := t.cid == .aac

/-- Bool predicate: the track's codec id is `MP4_CODEC_MP3` or
`MP4_CODEC_OPUS`. -/
def isOtherAudioTrack (t : GoTrackInfo) : Bool := t.cid == .mp3 || t.cid == .opus

/-- Embedding of the `ASRUtterance` JSON record. -/
structure ASRUtterance where
  transcript : String
  startTime : Int
  endTime : Int
deriving DecidableEq, Repr

/-- Embedding of the `ASRResult` JSON record. -/
structure ASRResult where
  utterances : List ASRUtterance
deriving DecidableEq, Repr

/-- Embedding of the `toText` builder loop (companion variant):

```go
for i, utterance := range result.Utterances {
    text.WriteString(utterance.Transcript)
    if i < len(result.Utterances)-1 {
        text.WriteString("\n")
    }
}
```

`total` is `len(result.Utterances)` and `i` the loop index. -/
def toTextAux (total : Nat) : Nat → List ASRUtterance → String
  | _, [] => ""
  | i, u :: us =>
      u.transcript ++ (if i < total - 1 then "\n" else "") ++ toTextAux total (i + 1) us

/-- Embedding of `toText(result *ASRResult)`. -/
def toText (r : ASRResult) : String := toTextAux r.utterances.length 0 r.utterances

/-- The spec's description of `toText`: concatenate the texts, one newline
between consecutive segments, no trailing newline. -/
def specJoinNewlines : List String → String
  | [] => ""
  | [t] => t
  | t :: ts => t ++ "\n" ++ specJoinNewlines ts

/-- Embedding of `gomp4.Chunk`: `DataOffset` and `SamplesPerChunk`. -/
structure MP4Chunk where
  dataOffset : Nat
  samplesPerChunk : Nat
deriving DecidableEq, Repr

/-- Embedding of the derived `sampleInfo` record of `videoToAudio`. -/
structure SampleInfo where
  offset : Nat
  size : Nat
deriving DecidableEq, Repr

/-- Inner loop of the offset-table construction: consume up to
`samplesPerChunk` samples, assigning offsets that start at the chunk's
`DataOffset` and accumulate by each sample's size; returns the produced
entries and the remaining samples. -/
def fillChunk (off : Nat) : Nat → List Nat → List SampleInfo × List Nat
  | 0, rest => ([], rest)
  | _ + 1, [] => ([], [])
  | n + 1, s :: rest =>
      let p := fillChunk (off + s) n rest
      (⟨off, s⟩ :: p.1, p.2)

/-- Embedding of the offset-table construction in `videoToAudio`
(companion variant):

```go
sampleIdx := 0
for chunkIdx, chunk := range audioTrack.Chunks {
    chunkOffset := int64(chunk.DataOffset)
    for i := uint32(0); i < chunk.SamplesPerChunk && sampleIdx < len(audioTrack.Samples); i++ {
        sample := audioTrack.Samples[sampleIdx]
        sampleOffsets = append(sampleOffsets, sampleInfo{offset: chunkOffset, size: sample.Size})
        chunkOffset += int64(sample.Size)
        sampleIdx++
    }
}
``` -/
def buildSampleOffsets : List MP4Chunk → List Nat → List SampleInfo
  | [], _ => []
  | ch :: chs, samples =>
      let p := fillChunk ch.dataOffset ch.samplesPerChunk samples
      p.1 ++ buildSampleOffsets chs p.2

/-- The `n` bytes of the input file starting at `off` (the effect of
`Seek(off)` followed by `io.ReadFull` of an `n`-byte buffer); the input file
is modelled as a byte function. -/
def readAt (fd : Nat → Nat) (off n : Nat) : List Nat :=
  (List.range n).map (fun j => fd (off + j))

/-- The bytes written to the output file for one sample: for AAC, the
synthesized ADTS header (with the `uint16(si.size)` cast of the Go call)
followed by the raw sample bytes; for MP3, the raw sample bytes alone. -/
def frameBytes (fd : Nat → Nat) (isAAC : Bool) (profile freqIdx chanConf : Nat)
    (si : SampleInfo) : List Nat :=
  if isAAC then
    makeADTSHeader profile freqIdx chanConf (si.size % 65536) ++
      readAt fd si.offset si.size
  else readAt fd si.offset si.size

/-- Embedding of the extraction loop of `videoToAudio`: zero-size samples
are skipped (`continue`); each remaining sample contributes one framed
unit, in table order. -/
def extractFrames (fd : Nat → Nat) (isAAC : Bool) (profile freqIdx chanConf : Nat)
    (infos : List SampleInfo) : List (List Nat) :=
  infos.filterMap (fun si =>
    if si.size = 0 then none
    else some (frameBytes fd isAAC profile freqIdx chanConf si))

/-- The two failure modes of the extraction tail: an empty offset table
(`无法构建sample偏移量表`) and no extracted data (`未能从视频中提取到音频数据`). -/
inductive ExtractError
  | emptyOffsets
  | emptyOutput
deriving DecidableEq, Repr

/-- Result of the extraction run; on failure the partial output file is
removed (`os.Remove(outputPath)`), recorded in `fileRemoved`. -/
inductive ExtractRun
  | failure (e : ExtractError) (fileRemoved : Bool)
  | success (bytes : List Nat)
deriving DecidableEq, Repr

/-- Embedding of the output-producing tail of `videoToAudio`: fail (and
remove the output file) if the offset table is empty; otherwise write the
framed units of all nonzero-size samples; fail (and remove) if nothing was
written (`hasData == false`). -/
def runExtraction (fd : Nat → Nat) (isAAC : Bool) (profile freqIdx chanConf : Nat)
    (chunks : List MP4Chunk) (samples : List Nat) : ExtractRun :=
  let infos := buildSampleOffsets chunks samples
  if infos.isEmpty then .failure .emptyOffsets true
  else
    let frames := extractFrames fd isAAC profile freqIdx chanConf infos
    if frames.isEmpty then .failure .emptyOutput true
    else .success frames.flatten

/-- Embedding of the Go slice expression `fileData[start:end]`: defined only
when `start ≤ end ≤ len(fileData)` (otherwise the Go program panics). -/
def sliceBytes (data : List Nat) (s e : Nat) : Option (List Nat) :=
  if s ≤ e ∧ e ≤ data.length then some ((data.drop s).take (e - s)) else none

/-- Embedding of the chunking loop of `upload()`:

```go
for i, uploadURL := range uploadResp.Data.UploadURLs {
    start := int64(i) * perSize
    end := start + perSize
    if end > int64(len(fileData)) {
        end = int64(len(fileData))
    }
    chunk := fileData[start:end]
    ...
}
```

`i` is the next URL index and the second argument counts the URLs still to
process; a panicking slice makes the whole run undefined (`none`). -/
def uploadChunksAux (data : List Nat) (perSize : Nat) : Nat → Nat → Option (List (List Nat))
  | _, 0 => some []
  | i, rem + 1 =>
    match sliceBytes data (i * perSize) (min (i * perSize + perSize) data.length) with
    | none => none
    | some c =>
      match uploadChunksAux data perSize (i + 1) rem with
      | none => none
      | some cs => some (c :: cs)

/-- The list of chunks PUT by `upload()` for a plan with `numURLs` upload
URLs and per-chunk size `perSize`. -/
def uploadChunks (data : List Nat) (numURLs perSize : Nat) : Option (List (List Nat)) :=
  uploadChunksAux data perSize 0 numURLs

/-- Byte count of each chunk: chunk `i` covers `[i*perSize, min((i+1)*perSize, n))`. -/
def chunkSizes (n perSize k : Nat) : List Nat :=
  (List.range k).map (fun i => min ((i + 1) * perSize) n - i * perSize)

/-- The headers of one chunk PUT's response: the values of the literal
header keys `"Etag"` and `"ETag"` the code reads (empty string = absent). -/
structure PutResponse where
  statusCode : Nat
  etagLower : String
  etagUpper : String
deriving DecidableEq, Repr

/-- Embedding of the ETag selection:

```go
etag := uploadHttpResp.Header.Get("Etag")
if etag == "" {
    etag = uploadHttpResp.Header.Get("ETag")
}
``` -/
def pickEtag (r : PutResponse) : String :=
  if r.etagLower = "" then r.etagUpper else r.etagLower

/-- Embedding of the ETag accumulation across the chunk loop
(`asr.Etags = append(asr.Etags, etag)` starting from `[]string{}`). -/
def collectEtags (resps : List PutResponse) : List String :=
  resps.foldl (fun acc r => acc ++ [pickEtag r]) []

/-- Embedding of the commit request's `etags` form field:
`strings.Join(asr.Etags, ",")`. -/
def commitEtagsField (etags : List String) : String :=
  String.intercalate "," etags

/-- One response of the query-result endpoint, as decoded by `pollResult`;
`resultParse` is the outcome of `json.Unmarshal` on the embedded `result`
string. -/
structure PollResp where
  code : Int
  message : String
  state : Int
  remark : String
  resultParse : Option ASRResult
deriving DecidableEq, Repr

/-- The ways `pollResult` can return. -/
inductive PollOutcome
  | done (r : ASRResult)
  | svcError (code : Int) (message : String)
  | failed (remark : String)
  | parseError
  | timeout
deriving DecidableEq, Repr

/-- The generic message substituted for an empty remark on state 3
(companion variant). -/
def genericFailRemark : String := "未知错误(可能是音频格式不支持或文件损坏)"

/-- Embedding of the polling loop of `pollResult` (companion variant):
up to 500 attempts; `f i` is the service response to the (i+1)-th query.
State 4 returns the parsed result (or the unmarshal error), state 3 fails
with the remark (generic message when empty), a non-zero code fails, and
any other state continues to the next attempt. -/
def pollAux (f : Nat → PollResp) : Nat → Nat → PollOutcome
  | 0, _ => .timeout
  | fuel + 1, i =>
    let r := f i
    if r.code ≠ 0 then .svcError r.code r.message
    else if r.state = 4 then
      match r.resultParse with
      | some res => .done res
      | none => .parseError
    else if r.state = 3 then
      .failed (if r.remark = "" then genericFailRemark else r.remark)
    else pollAux f fuel (i + 1)

/-- `pollResult` run with its full 500-attempt budget. -/
def pollResultRun (f : Nat → PollResp) : PollOutcome := pollAux f 500 0

/-- Number of query attempts (HTTP GETs) the polling loop performs. -/
def pollAttemptsAux (f : Nat → PollResp) : Nat → Nat → Nat
  | 0, _ => 0
  | fuel + 1, i =>
    let r := f i
    if r.code ≠ 0 then 1
    else if r.state = 4 then 1
    else if r.state = 3 then 1
    else 1 + pollAttemptsAux f fuel (i + 1)

/-- Number of query attempts of a full `pollResult` run. -/
def pollAttempts (f : Nat → PollResp) : Nat := pollAttemptsAux f 500 0

/-- A response on which the loop keeps polling: service code 0 and a state
that is neither 4 (done) nor 3 (failed). -/
def pollContinues (r : PollResp) : Prop := r.code = 0 ∧ r.state ≠ 4 ∧ r.state ≠ 3

instance (r : PollResp) : Decidable (pollContinues r) := by
  unfold pollContinues
  infer_instance

/-- Embedding of the `audioExts` set of `Run()`. -/
def audioExts : List String :=
  [".mp3", ".wav", ".flac", ".m4a", ".ogg", ".aac", ".wma"]

/-- Embedding of `filepath.Ext`: the suffix beginning at the final dot in
the final path element ('/'-separated); empty if that element has no dot. -/
def fpExt (path : String) : String :=
  let base := (path.toList.reverse.takeWhile (fun c => c != '/')).reverse
  let pre := base.reverse.takeWhile (fun c => c != '.')
  if pre.length = base.length then "" else String.mk ('.' :: pre.reverse)

/-- Embedding of `strings.ToLower` on the ASCII range (the only characters
the extension comparison can match): lowercase each character. -/
def asciiToLower (s : String) : String := String.mk (s.toList.map Char.toLower)

/-- Embedding of `strings.TrimPrefix(ext, ".")`: drop a leading dot if the
string has one. -/
def stripLeadingDot (s : String) : String :=
  match s.toList with
  | '.' :: rest => String.mk rest
  | _ => s

/-- The two ways `Run()` obtains its audio file: extract from the container,
or pass the input through with the format tag derived from its extension. -/
inductive RunStep
  | extract
  | passthrough (format : String)
deriving DecidableEq, Repr

/-- Embedding of step 0 of `Run()`:

```go
audioExts := map[string]bool{".mp3": true, ".wav": true, ".flac": true, ".m4a": true, ".ogg": true, ".aac": true, ".wma": true}
ext := strings.ToLower(filepath.Ext(asr.AudioPath))
if !audioExts[ext] {
    extractedPath, audioFmt, err := videoToAudio(asr.AudioPath)
    ...
} else {
    asr.AudioFormat = strings.TrimPrefix(ext, ".")
}
``` -/
def runDispatch (path : String) : RunStep :=
  let ext := asciiToLower (fpExt path)
  if audioExts.contains ext then .passthrough (stripLeadingDot ext) else .extract

lemma or_some_or {α : Type} (x : Option α) (v : α) (z : Option α) :
    (x.or (some v)).or z = x.or (some v) := by
  cases x <;> rfl

lemma selectAudioTrackLoop_eq (ts : List GoTrackInfo) :
    ∀ acc, selectAudioTrackLoop acc ts =
      (ts.find? isAacTrack).or ((ts.reverse.find? isOtherAudioTrack).or acc) := by
  induction ts with
  | nil => intro acc; rfl
  | cons t ts ih =>
    intro acc
    obtain ⟨cid, tid⟩ := t
    cases cid with
    | aac =>
      simp [selectAudioTrackLoop, isAacTrack, isOtherAudioTrack]
    | mp3 =>
      simp only [selectAudioTrackLoop, List.reverse_cons, List.find?_append]
      rw [if_pos (by simp), if_neg (by simp), ih]
      simp [isAacTrack, isOtherAudioTrack, Option.or_assoc, or_some_or]
    | opus =>
      simp only [selectAudioTrackLoop, List.reverse_cons, List.find?_append]
      rw [if_pos (by simp), if_neg (by simp), ih]
      simp [isAacTrack, isOtherAudioTrack, Option.or_assoc, or_some_or]
    | nonAudio =>
      simp only [selectAudioTrackLoop, List.reverse_cons, List.find?_append]
      rw [if_neg (by simp), ih]
      simp [isAacTrack, isOtherAudioTrack, Option.or_assoc]

lemma toTextAux_eq (us : List ASRUtterance) :
    ∀ i total, total = i + us.length →
      toTextAux total i us = specJoinNewlines (us.map (·.transcript)) := by
  induction us with
  | nil => intro i total _; rfl
  | cons u us ih =>
    intro i total htot
    cases us with
    | nil =>
      simp only [toTextAux, List.map]
      rw [if_neg (by simp at htot; omega)]
      simp [specJoinNewlines, toTextAux]
    | cons v vs =>
      have hlt : i < total - 1 := by simp at htot; omega
      have h2 := ih (i + 1) total (by simp at htot ⊢; omega)
      rw [show toTextAux total i (u :: v :: vs) =
            u.transcript ++ (if i < total - 1 then "\n" else "") ++
              toTextAux total (i + 1) (v :: vs) from rfl,
        if_pos hlt, h2]
      rfl

lemma fillChunk_fst_sizes (sizes : List Nat) :
    ∀ off n, ((fillChunk off n sizes).1).map (·.size) = sizes.take n := by
  induction sizes with
  | nil => intro off n; cases n <;> rfl
  | cons s rest ih =>
    intro off n
    cases n with
    | zero => rfl
    | succ m => simp [fillChunk, ih]

lemma fillChunk_snd (sizes : List Nat) :
    ∀ off n, (fillChunk off n sizes).2 = sizes.drop n := by
  induction sizes with
  | nil => intro off n; cases n <;> rfl
  | cons s rest ih =>
    intro off n
    cases n with
    | zero => rfl
    | succ m => simp [fillChunk, ih]

lemma buildSampleOffsets_sizes (chunks : List MP4Chunk) :
    ∀ samples : List Nat,
      samples.length ≤ (chunks.map (·.samplesPerChunk)).sum →
      (buildSampleOffsets chunks samples).map (·.size) = samples := by
  induction chunks with
  | nil =>
    intro samples h
    simp at h
    simp [buildSampleOffsets, h]
  | cons ch chs ih =>
    intro samples h
    simp only [buildSampleOffsets, List.map_append, fillChunk_fst_sizes,
      fillChunk_snd]
    rw [ih (samples.drop ch.samplesPerChunk)
      (by simp at h ⊢; omega)]
    exact List.take_append_drop _ _

lemma mem_buildSampleOffsets_size (chunks : List MP4Chunk) :
    ∀ (samples : List Nat) (si : SampleInfo),
      si ∈ buildSampleOffsets chunks samples → si.size ∈ samples := by
  induction chunks with
  | nil => intro samples si h; simp [buildSampleOffsets] at h
  | cons ch chs ih =>
    intro samples si h
    simp only [buildSampleOffsets, List.mem_append] at h
    rcases h with h | h
    · have : si.size ∈ ((fillChunk ch.dataOffset ch.samplesPerChunk samples).1).map
          (·.size) := List.mem_map_of_mem _ h
      rw [fillChunk_fst_sizes] at this
      exact List.mem_of_mem_take this
    · rw [fillChunk_snd] at h
      exact List.mem_of_mem_drop (ih _ si h)

lemma extractFrames_eq_filter (fd : Nat → Nat) (isAAC : Bool)
    (profile freqIdx chanConf : Nat) :
    ∀ infos : List SampleInfo,
      extractFrames fd isAAC profile freqIdx chanConf infos =
        (infos.filter (fun si => si.size != 0)).map
          (frameBytes fd isAAC profile freqIdx chanConf) := by
  intro infos
  induction infos with
  | nil => rfl
  | cons si infos ih =>
    by_cases h : si.size = 0
    · simp [extractFrames, List.filterMap_cons, h] at ih ⊢
      exact ih
    · simp [extractFrames, List.filterMap_cons, h] at ih ⊢
      exact ih

lemma length_frameBytes (fd : Nat → Nat) (profile freqIdx chanConf : Nat)
    (si : SampleInfo) :
    (frameBytes fd true profile freqIdx chanConf si).length = 7 + si.size ∧
    (frameBytes fd false profile freqIdx chanConf si).length = si.size := by
  constructor <;> simp [frameBytes, readAt, makeADTSHeader] <;> omega

lemma sum_map_add_seven (l : List Nat) :
    (l.map (fun s => 7 + s)).sum = l.sum + 7 * l.length := by
  induction l with
  | nil => rfl
  | cons s l ih => simp [ih]; ring

lemma uploadChunksAux_eq_some (data : List Nat) (perSize : Nat) :
    ∀ rem i, (∀ t < rem, (i + t) * perSize ≤ data.length) →
      uploadChunksAux data perSize i rem =
        some ((List.range rem).map (fun t =>
          (data.drop ((i + t) * perSize)).take
            (min ((i + t) * perSize + perSize) data.length - (i + t) * perSize))) := by
  intro rem
  induction rem with
  | zero => intro i _; rfl
  | succ rem ih =>
    intro i H
    have h0 : i * perSize ≤ data.length := by simpa using H 0 (by omega)
    have hs : sliceBytes data (i * perSize)
        (min (i * perSize + perSize) data.length) =
        some ((data.drop (i * perSize)).take
          (min (i * perSize + perSize) data.length - i * perSize)) := by
      rw [sliceBytes, if_pos (by omega)]
    have hrec := ih (i + 1) (fun t ht => by
      have hh := H (t + 1) (by omega)
      have e : i + (t + 1) = i + 1 + t := by omega
      rwa [e] at hh)
    simp only [uploadChunksAux, hs, hrec]
    rw [List.range_succ_eq_map, List.map_cons, List.map_map]
    refine congrArg some (congrArg₂ List.cons (by simp) ?_)
    refine List.map_congr_left fun t _ => ?_
    have e : i + 1 + t = i + (t + 1) := by omega
    simp only [Function.comp, e]

lemma uploadChunksAux_eq_none (data : List Nat) (perSize : Nat) :
    ∀ rem i, (∃ t < rem, data.length < (i + t) * perSize) →
      uploadChunksAux data perSize i rem = none := by
  intro rem
  induction rem with
  | zero => intro i h; obtain ⟨t, ht, -⟩ := h; omega
  | succ rem ih =>
    intro i h
    by_cases h0 : i * perSize ≤ data.length
    · obtain ⟨t, ht, hbad⟩ := h
      have htpos : t ≠ 0 := by
        intro h'
        rw [h'] at hbad
        simp at hbad
        omega
      have hrec : uploadChunksAux data perSize (i + 1) rem = none := by
        refine ih (i + 1) ⟨t - 1, by omega, ?_⟩
        have e : i + 1 + (t - 1) = i + t := by omega
        rwa [e]
      have hs : sliceBytes data (i * perSize)
          (min (i * perSize + perSize) data.length) =
          some ((data.drop (i * perSize)).take
            (min (i * perSize + perSize) data.length - i * perSize)) := by
        rw [sliceBytes, if_pos (by omega)]
      simp only [uploadChunksAux, hs, hrec]
    · have hs : sliceBytes data (i * perSize)
          (min (i * perSize + perSize) data.length) = none := by
        rw [sliceBytes, if_neg (by omega)]
      simp only [uploadChunksAux, hs]

lemma collectEtags_go (resps : List PutResponse) :
    ∀ acc, resps.foldl (fun acc r => acc ++ [pickEtag r]) acc =
      acc ++ resps.map pickEtag := by
  induction resps with
  | nil => intro acc; simp
  | cons r resps ih =>
    intro acc
    simp only [List.foldl_cons, List.map_cons, ih]
    simp

lemma pollAux_skip (f : Nat → PollResp) :
    ∀ j fuel i, j ≤ fuel → (∀ t < j, pollContinues (f (i + t))) →
      pollAux f fuel i = pollAux f (fuel - j) (i + j) := by
  intro j
  induction j with
  | zero => intro fuel i _ _; simp
  | succ j ih =>
    intro fuel i hj hcont
    obtain ⟨fu, rfl⟩ : ∃ fu, fuel = fu + 1 := ⟨fuel - 1, by omega⟩
    have h0 : pollContinues (f i) := by simpa using hcont 0 (by omega)
    obtain ⟨hcode, hs4, hs3⟩ := h0
    have hstep : pollAux f (fu + 1) i = pollAux f fu (i + 1) := by
      simp only [pollAux]
      rw [if_neg (by simp [hcode]), if_neg hs4, if_neg hs3]
    rw [hstep, ih fu (i + 1) (by omega) (fun t ht => by
      have hh := hcont (t + 1) (by omega)
      have e : i + (t + 1) = i + 1 + t := by omega
      rwa [e] at hh)]
    have e1 : fu + 1 - (j + 1) = fu - j := by omega
    have e2 : i + 1 + j = i + (j + 1) := by omega
    rw [e1, e2]

lemma pollAttemptsAux_le (f : Nat → PollResp) :
    ∀ fuel i, pollAttemptsAux f fuel i ≤ fuel := by
  intro fuel
  induction fuel with
  | zero => intro i; simp [pollAttemptsAux]
  | succ fuel ih =>
    intro i
    have h := ih (i + 1)
    simp only [pollAttemptsAux]
    split_ifs <;> omega

lemma lor_mul64_mod_four {a d : Nat} (ha : a < 4) (hd : d < 4) :
    (a * 64 ||| d) % 4 = d := by
  interval_cases a <;> interval_cases d <;> rfl

lemma lor_mul32_31_div_32 {l : Nat} (hl : l < 8) :
    (l * 32 ||| 31) / 32 = l := by
  interval_cases l <;> rfl

lemma and_three_eq_mod (c : Nat) : c &&& 3 = c % 4 := by
  have h := Nat.and_pow_two_sub_one_eq_mod c 2
  norm_num at h
  exact h

lemma and_seven_eq_mod (c : Nat) : c &&& 7 = c % 8 := by
  have h := Nat.and_pow_two_sub_one_eq_mod c 3
  norm_num at h
  exact h

/-- C1: for ADTS profile ≤ 3, frequency index ≤ 12, channel count < 256 and
sample size with s+7 < 2^13, the synthesized header is the 7-byte sequence
b0=0xFF, b1=0xF1, b2=(p<<6)|(f<<2)|(c>>2), b3=((c&3)<<6)|bits 12..11 of s+7,
b4=bits 10..3 of s+7, b5=(bits 2..0 of s+7)<<5|0x1F, b6=0xFC; the embedded
13-bit length field equals s+7; for (profile 1, freq 4, channels 2, input 100)
the field equals 107; and the channel configuration defaults to 2 when the
track reports none. -/
theorem c1_adts_header_bit_exact :
    (∀ profile freqIdx chanConf frameLen : Nat,
      profile ≤ 3 → freqIdx ≤ 12 → chanConf < 256 → frameLen + 7 < 8192 →
      makeADTSHeader profile freqIdx chanConf frameLen =
        [0xFF, 0xF1,
         (profile <<< 6) ||| (freqIdx <<< 2) ||| (chanConf >>> 2),
         ((chanConf % 4) <<< 6) ||| (((frameLen + 7) >>> 11) &&& 3),
         ((frameLen + 7) >>> 3) % 256,
         (((frameLen + 7) % 8) <<< 5) ||| 0x1F,
         0xFC] ∧
      (makeADTSHeader profile freqIdx chanConf frameLen).length = 7 ∧
      adtsFrameLength (makeADTSHeader profile freqIdx chanConf frameLen) =
        frameLen + 7) ∧
    adtsFrameLength (makeADTSHeader 1 4 2 100) = 107 ∧
    effectiveChannelCount none = 2 ∧
    (∀ info : MP4AInfo, info.channelCount = 0 →
      effectiveChannelCount (some info) = 2) := by
  refine ⟨?_, by decide, rfl, ?_⟩
  · intro p f c s hp hf hc hs
    have h16 : s + 7 < 65536 := by omega
    have hmod : (s + 7) % 65536 = s + 7 := Nat.mod_eq_of_lt h16
    refine ⟨?_, rfl, ?_⟩
    · simp only [makeADTSHeader, hmod, Nat.shiftLeft_eq, and_three_eq_mod,
        and_seven_eq_mod]
      norm_num
      refine ⟨?_, ?_, ?_⟩
      · rw [Nat.mod_eq_of_lt (by omega), Nat.mod_eq_of_lt (by omega)]
      · rw [Nat.mod_eq_of_lt (show c % 4 * 64 < 256 by omega)]
      · rw [Nat.mod_eq_of_lt (show (s + 7) % 8 * 32 < 256 by omega)]
    · simp only [makeADTSHeader, hmod, adtsFrameLength, Nat.shiftLeft_eq,
        Nat.shiftRight_eq_div_pow, and_three_eq_mod, and_seven_eq_mod]
      norm_num
      have hd : (s + 7) / 2048 < 4 := by omega
      have hd4 : (s + 7) / 2048 % 4 = (s + 7) / 2048 := Nat.mod_eq_of_lt hd
      rw [Nat.mod_eq_of_lt (show c % 4 * 64 < 256 by omega),
        Nat.mod_eq_of_lt (show (s + 7) % 8 * 32 < 256 by omega),
        hd4, lor_mul64_mod_four (by omega) (by omega),
        lor_mul32_31_div_32 (by omega)]
      omega
  · intro info h
    simp [effectiveChannelCount, h]

/-- Witness for C1 at profile 1, frequency index 4, channels 2, frame length
input 100. -/
theorem c1_adts_header_bit_exact_witness :
    makeADTSHeader 1 4 2 100 =
      [0xFF, 0xF1, 0x50, 0x80, 0x0D, 0x7F, 0xFC] ∧
    adtsFrameLength (makeADTSHeader 1 4 2 100) = 107 ∧
    effectiveChannelCount (some ⟨0x40, 2, 0⟩) = 2 := by
  obtain ⟨hmain, hlen, hchan0, hchan⟩ := c1_adts_header_bit_exact
  obtain ⟨hlist, -, hframe⟩ :=
    hmain 1 4 2 100 (by decide) (by decide) (by decide) (by decide)
  exact ⟨by rw [hlist]; rfl, hframe, hchan ⟨0x40, 2, 0⟩ rfl⟩

/-- C3 counterexample: with OTI 0x6B (MPEG-1 Layer III) and AOT 5, the
classifier returns MP3, not UNSUPPORTED — the AOT is only consulted when
OTI is 0x40, so "AOT 5/29 always classify UNSUPPORTED irrespective of the
OTI byte" fails. -/
theorem c3_counterexample :
    (detectAudioCodec (some ⟨0x6B, 5, 2⟩)).1 = AudioCodecType.mp3 ∧
    (detectAudioCodec (some ⟨0x6B, 5, 2⟩)).1 ≠ AudioCodecType.heaac := by
  constructor
  · rfl
  · intro h
    simp [detectAudioCodec] at h

/-- C3 (amended): for OTI 0x40, AOT values 1, 2, 3, 4 map to ADTS profiles
0, 1, 2, 3; AOT 5 and 29 classify UNSUPPORTED (HE-AAC); any other AOT
defaults to family AAC with profile 1.  For any OTI other than 0x40 the AOT
byte is never consulted: the classification is unchanged under any change
of AOT (and of channel count). -/
theorem c3_codec_classification :
    (∀ info : MP4AInfo, info.oti = 0x40 →
      ((info.audOTI = 1 → (detectAudioCodec (some info)).1 = AudioCodecType.aac ∧
          (detectAudioCodec (some info)).2.1 = 0) ∧
       (info.audOTI = 2 → (detectAudioCodec (some info)).1 = AudioCodecType.aac ∧
          (detectAudioCodec (some info)).2.1 = 1) ∧
       (info.audOTI = 3 → (detectAudioCodec (some info)).1 = AudioCodecType.aac ∧
          (detectAudioCodec (some info)).2.1 = 2) ∧
       (info.audOTI = 4 → (detectAudioCodec (some info)).1 = AudioCodecType.aac ∧
          (detectAudioCodec (some info)).2.1 = 3) ∧
       (info.audOTI = 5 ∨ info.audOTI = 29 →
          (detectAudioCodec (some info)).1 = AudioCodecType.heaac) ∧
       (info.audOTI ≠ 1 → info.audOTI ≠ 2 → info.audOTI ≠ 3 → info.audOTI ≠ 4 →
          info.audOTI ≠ 5 → info.audOTI ≠ 29 →
          (detectAudioCodec (some info)).1 = AudioCodecType.aac ∧
          (detectAudioCodec (some info)).2.1 = 1))) ∧
    (∀ oti a a' cc cc' : Nat, oti ≠ 0x40 →
      detectAudioCodec (some ⟨oti, a, cc⟩) = detectAudioCodec (some ⟨oti, a', cc'⟩)) := by
  constructor
  · intro info h40
    refine ⟨fun h => ?_, fun h => ?_, fun h => ?_, fun h => ?_, fun h => ?_,
      fun h1 h2 h3 h4 h5 h29 => ?_⟩
    · simp [detectAudioCodec, h40, h]
    · simp [detectAudioCodec, h40, h]
    · simp [detectAudioCodec, h40, h]
    · simp [detectAudioCodec, h40, h]
    · rcases h with h | h <;> simp [detectAudioCodec, h40, h]
    · simp [detectAudioCodec, h40, h1, h2, h3, h4, h5, h29]
  · intro oti a a' cc cc' hne
    simp only [detectAudioCodec]
    split_ifs <;> first | rfl | exact absurd (by assumption) hne

/-- Witness for C3 (amended) at AOT 5 under OTI 0x40 and at OTI 0x6B with two
different AOT values. -/
theorem c3_codec_classification_witness :
    (detectAudioCodec (some ⟨0x40, 5, 2⟩)).1 = AudioCodecType.heaac ∧
    detectAudioCodec (some ⟨0x6B, 5, 2⟩) = detectAudioCodec (some ⟨0x6B, 7, 6⟩) := by
  obtain ⟨h40, hother⟩ := c3_codec_classification
  exact ⟨(h40 ⟨0x40, 5, 2⟩ rfl).2.2.2.2.1 (Or.inl rfl),
    hother 0x6B 5 7 2 6 (by decide)⟩

/-- C4 counterexample: with tracks [MP3(id 1), MP3(id 2)] and no AAC track,
the selection loop of `core/asr.go` returns the LAST MP3 track (id 2), not
the first one encountered, refuting "otherwise selects the first MP3/other-
audio track encountered". -/
theorem c4_counterexample :
    selectAudioTrack [⟨MediaCid.mp3, 1⟩, ⟨MediaCid.mp3, 2⟩] =
        some ⟨MediaCid.mp3, 2⟩ ∧
    selectAudioTrack [⟨MediaCid.mp3, 1⟩, ⟨MediaCid.mp3, 2⟩] ≠
        some ⟨MediaCid.mp3, 1⟩ := by
  constructor
  · rfl
  · intro h
    simp [selectAudioTrack, selectAudioTrackLoop] at h

/-- C4 (amended): the `core/asr.go` pipeline selects the first AAC track when
any AAC track exists (AAC takes precedence regardless of scan order), and
otherwise selects the LAST MP3/Opus track encountered (the loop keeps
overwriting its candidate without breaking); the `abema/go-mp4` variant
instead selects the first `mp4a` track irrespective of the codec inside it. -/
theorem c4_track_selection :
    (∀ tracks : List GoTrackInfo,
      selectAudioTrack tracks =
        (tracks.find? isAacTrack).or (tracks.reverse.find? isOtherAudioTrack)) ∧
    (∀ tracks : List AbemaTrack,
      findMp4aTrack tracks = tracks.find? (fun t => t.codec == AbemaCodec.mp4a)) := by
  constructor
  · intro ts
    rw [selectAudioTrack, selectAudioTrackLoop_eq]
    cases ts.find? isAacTrack <;> cases ts.reverse.find? isOtherAudioTrack <;> rfl
  · intro ts
    induction ts with
    | nil => rfl
    | cons t ts ih =>
      by_cases h : t.codec = AbemaCodec.mp4a
      · simp [findMp4aTrack, h]
      · simp [findMp4aTrack, h, ih]

/-- C2 counterexample: a track of N=2 samples with a zero-size sample
(chunk table [{offset 0, 2 samples}], sample sizes [0, 5]) yields 1 framed
unit, not 2, and an AAC output of 12 bytes, not Σsize + 7N = 19; a chunk
table covering only 1 of 2 samples ([{offset 0, 1 sample}], sizes [3, 5])
also yields 1 framed unit, not 2. -/
theorem c2_counterexample :
    (extractFrames (fun _ => 0) true 1 4 2
        (buildSampleOffsets [⟨0, 2⟩] [0, 5])).length = 1 ∧
    (1 : Nat) ≠ 2 ∧
    (extractFrames (fun _ => 0) true 1 4 2
        (buildSampleOffsets [⟨0, 2⟩] [0, 5])).flatten.length = 12 ∧
    (12 : Nat) ≠ 0 + 5 + 7 * 2 ∧
    (extractFrames (fun _ => 0) true 1 4 2
        (buildSampleOffsets [⟨0, 1⟩] [3, 5])).length = 1 := by
  refine ⟨by decide, by decide, by decide, by decide, by decide⟩

/-- C2 (amended): for every selected track whose chunk table covers all its
N samples and whose samples all have nonzero size, extraction writes exactly
N framed units in container sample order (framed unit i coming from sample i);
for AAC the output length is Σ sampleSize + 7·N and framed unit i is the
7-byte ADTS header followed by the raw sample bytes; for MP3 the output
length is Σ sampleSize exactly and framed unit i is the raw sample bytes
unchanged (no decode or re-encode). -/
theorem c2_extraction_roundtrip :
    ∀ (fd : Nat → Nat) (profile freqIdx chanConf : Nat)
      (chunks : List MP4Chunk) (samples : List Nat),
      (∀ s ∈ samples, 0 < s) →
      samples.length ≤ (chunks.map (·.samplesPerChunk)).sum →
      ((buildSampleOffsets chunks samples).map (·.size) = samples) ∧
      (∀ isAAC : Bool,
        extractFrames fd isAAC profile freqIdx chanConf
            (buildSampleOffsets chunks samples) =
          (buildSampleOffsets chunks samples).map
            (frameBytes fd isAAC profile freqIdx chanConf)) ∧
      (∀ isAAC : Bool,
        (extractFrames fd isAAC profile freqIdx chanConf
            (buildSampleOffsets chunks samples)).length = samples.length) ∧
      ((extractFrames fd true profile freqIdx chanConf
          (buildSampleOffsets chunks samples)).map List.length =
        samples.map (fun s => 7 + s)) ∧
      ((extractFrames fd true profile freqIdx chanConf
          (buildSampleOffsets chunks samples)).flatten.length =
        samples.sum + 7 * samples.length) ∧
      ((extractFrames fd false profile freqIdx chanConf
          (buildSampleOffsets chunks samples)).map List.length = samples) ∧
      ((extractFrames fd false profile freqIdx chanConf
          (buildSampleOffsets chunks samples)).flatten.length = samples.sum) := by
  intro fd p f c chunks samples hpos hcov
  have hsz := buildSampleOffsets_sizes chunks samples hcov
  have hnz : ∀ si ∈ buildSampleOffsets chunks samples, si.size ≠ 0 := by
    intro si hsi
    have hmem := mem_buildSampleOffsets_size chunks samples si hsi
    have := hpos _ hmem
    omega
  have hfilter : (buildSampleOffsets chunks samples).filter
      (fun si => si.size != 0) = buildSampleOffsets chunks samples :=
    List.filter_eq_self.mpr (by intro a ha; simpa using hnz a ha)
  have hframes : ∀ b : Bool,
      extractFrames fd b p f c (buildSampleOffsets chunks samples) =
        (buildSampleOffsets chunks samples).map (frameBytes fd b p f c) := by
    intro b
    rw [extractFrames_eq_filter, hfilter]
  have hlen : ∀ b : Bool,
      (extractFrames fd b p f c (buildSampleOffsets chunks samples)).length =
        samples.length := by
    intro b
    rw [hframes b, List.length_map]
    calc (buildSampleOffsets chunks samples).length
        = ((buildSampleOffsets chunks samples).map (·.size)).length := by
          rw [List.length_map]
      _ = samples.length := by rw [hsz]
  have hmapTrue : (extractFrames fd true p f c
      (buildSampleOffsets chunks samples)).map List.length =
      samples.map (fun s => 7 + s) := by
    rw [hframes true, List.map_map]
    have h1 : (buildSampleOffsets chunks samples).map
        (List.length ∘ frameBytes fd true p f c) =
        (buildSampleOffsets chunks samples).map (fun si => 7 + si.size) :=
      List.map_congr_left fun si _ => (length_frameBytes fd p f c si).1
    have h2 : (buildSampleOffsets chunks samples).map (fun si => 7 + si.size) =
        ((buildSampleOffsets chunks samples).map (·.size)).map
          (fun s => 7 + s) := by
      rw [List.map_map]
      exact List.map_congr_left fun si _ => rfl
    rw [h1, h2, hsz]
  have hmapFalse : (extractFrames fd false p f c
      (buildSampleOffsets chunks samples)).map List.length = samples := by
    rw [hframes false, List.map_map]
    have h1 : (buildSampleOffsets chunks samples).map
        (List.length ∘ frameBytes fd false p f c) =
        (buildSampleOffsets chunks samples).map (·.size) :=
      List.map_congr_left fun si _ => (length_frameBytes fd p f c si).2
    rw [h1, hsz]
  refine ⟨hsz, hframes, hlen, hmapTrue, ?_, hmapFalse, ?_⟩
  · rw [List.length_flatten, hmapTrue, sum_map_add_seven]
  · rw [List.length_flatten, hmapFalse]

/-- Witness for C2 (amended): one chunk holding two samples of sizes 3 and
5; the AAC output has 2 framed units and 3+5+14 = 22 bytes. -/
theorem c2_extraction_roundtrip_witness :
    (extractFrames (fun _ => 9) true 1 4 2
        (buildSampleOffsets [⟨40, 2⟩] [3, 5])).length = 2 ∧
    (extractFrames (fun _ => 9) true 1 4 2
        (buildSampleOffsets [⟨40, 2⟩] [3, 5])).flatten.length = 22 := by
  obtain ⟨-, -, hlen, -, hflat, -, -⟩ :=
    c2_extraction_roundtrip (fun _ => 9) 1 4 2 [⟨40, 2⟩] [3, 5]
      (by decide) (by decide)
  exact ⟨hlen true, hflat⟩

/-- C8: a selected track with a nonempty sample-location table all of whose
samples have size zero fails with the empty-output error and the partial
output file is deleted; zero-size samples are skipped (the written frames
are exactly those of the nonzero-size samples, in order), and a track with
at least one nonzero-size sample still succeeds. -/
theorem c8_zero_size_samples :
    (∀ (fd : Nat → Nat) (isAAC : Bool) (profile freqIdx chanConf : Nat)
       (chunks : List MP4Chunk) (samples : List Nat),
      buildSampleOffsets chunks samples ≠ [] →
      (∀ s ∈ samples, s = 0) →
      runExtraction fd isAAC profile freqIdx chanConf chunks samples =
        .failure .emptyOutput true) ∧
    (∀ (fd : Nat → Nat) (isAAC : Bool) (profile freqIdx chanConf : Nat)
       (infos : List SampleInfo),
      extractFrames fd isAAC profile freqIdx chanConf infos =
        (infos.filter (fun si => si.size != 0)).map
          (frameBytes fd isAAC profile freqIdx chanConf)) ∧
    (∀ (fd : Nat → Nat) (isAAC : Bool) (profile freqIdx chanConf : Nat)
       (chunks : List MP4Chunk) (samples : List Nat) (si : SampleInfo),
      si ∈ buildSampleOffsets chunks samples → si.size ≠ 0 →
      runExtraction fd isAAC profile freqIdx chanConf chunks samples =
        .success (extractFrames fd isAAC profile freqIdx chanConf
          (buildSampleOffsets chunks samples)).flatten) := by
  refine ⟨?_, ?_, ?_⟩
  · intro fd isAAC p f c chunks samples hne hz
    have hzero : ∀ si ∈ buildSampleOffsets chunks samples, si.size = 0 := by
      intro si hsi
      exact hz _ (mem_buildSampleOffsets_size chunks samples si hsi)
    have hframes : extractFrames fd isAAC p f c
        (buildSampleOffsets chunks samples) = [] := by
      rw [extractFrames_eq_filter]
      rw [List.filter_eq_nil_iff.mpr (by intro a ha; simp [hzero a ha])]
      rfl
    simp [runExtraction, hne, hframes]
  · intro fd isAAC p f c infos
    exact extractFrames_eq_filter fd isAAC p f c infos
  · intro fd isAAC p f c chunks samples si hsi hnz
    have hne : buildSampleOffsets chunks samples ≠ [] := by
      intro h
      rw [h] at hsi
      exact absurd hsi (List.not_mem_nil si)
    have hfne : extractFrames fd isAAC p f c
        (buildSampleOffsets chunks samples) ≠ [] := by
      rw [extractFrames_eq_filter]
      intro h
      have : si ∈ (buildSampleOffsets chunks samples).filter
          (fun si => si.size != 0) := List.mem_filter.mpr ⟨hsi, by simpa using hnz⟩
      rw [List.map_eq_nil_iff.mp h] at this
      exact absurd this (List.not_mem_nil si)
    simp [runExtraction, hne, hfne]

/-- Witness for C8: all-zero track ([{offset 0, 1 sample}], sizes [0]) fails
with the empty-output error and a removed file; the interspersed track
([{offset 0, 2 samples}], sizes [0, 5]) succeeds with the 12 bytes of the
single nonzero sample's framed unit. -/
theorem c8_zero_size_samples_witness :
    runExtraction (fun _ => 0) true 1 4 2 [⟨0, 1⟩] [0] =
      ExtractRun.failure ExtractError.emptyOutput true ∧
    runExtraction (fun _ => 0) true 1 4 2 [⟨0, 2⟩] [0, 5] =
      ExtractRun.success (extractFrames (fun _ => 0) true 1 4 2
        (buildSampleOffsets [⟨0, 2⟩] [0, 5])).flatten := by
  obtain ⟨hall, -, hok⟩ := c8_zero_size_samples
  exact ⟨hall (fun _ => 0) true 1 4 2 [⟨0, 1⟩] [0] (by decide) (by decide),
    hok (fun _ => 0) true 1 4 2 [⟨0, 2⟩] [0, 5] ⟨0, 5⟩ (by decide) (by decide)⟩

/-- C5: under the totality precondition i·perSize ≤ n for every URL index i
(C9), `upload()` PUTs exactly k chunks in URL index order, chunk i being the
byte range [i·perSize, min((i+1)·perSize, n)); every non-final chunk has
exactly perSize bytes and the final chunk at most perSize bytes; each
chunk's ETag is header "Etag", else "ETag", collected in index order, and
the commit's etags field is their comma-join; per_size 5000000 over a
12000000-byte file with 3 URLs gives chunk sizes [5000000, 5000000,
2000000]. -/
theorem c5_upload_chunking :
    (∀ (data : List Nat) (k perSize : Nat),
      (∀ i < k, i * perSize ≤ data.length) →
      uploadChunks data k perSize =
        some ((List.range k).map (fun i =>
          (data.drop (i * perSize)).take
            (min ((i + 1) * perSize) data.length - i * perSize))) ∧
      ((List.range k).map (fun i =>
          (data.drop (i * perSize)).take
            (min ((i + 1) * perSize) data.length - i * perSize))).map
          List.length = chunkSizes data.length perSize k ∧
      (∀ i, i + 1 < k →
        (chunkSizes data.length perSize k)[i]? = some perSize) ∧
      (0 < k →
        (chunkSizes data.length perSize k)[k - 1]? =
          some (min (k * perSize) data.length - (k - 1) * perSize) ∧
        min (k * perSize) data.length - (k - 1) * perSize ≤ perSize)) ∧
    (∀ resps : List PutResponse, collectEtags resps = resps.map pickEtag) ∧
    (∀ resps : List PutResponse,
      commitEtagsField (collectEtags resps) =
        String.intercalate "," (resps.map pickEtag)) ∧
    chunkSizes 12000000 5000000 3 = [5000000, 5000000, 2000000] := by
  refine ⟨?_, ?_, ?_, by decide⟩
  · intro data k p hpre
    refine ⟨?_, ?_, ?_, ?_⟩
    · rw [uploadChunks, uploadChunksAux_eq_some data p k 0
        (fun t ht => by simpa using hpre t ht)]
      refine congrArg some (List.map_congr_left fun t _ => ?_)
      have e0 : 0 + t = t := by omega
      have e1 : t * p + p = (t + 1) * p := by ring
      rw [e0, e1]
    · rw [List.map_map, chunkSizes]
      refine List.map_congr_left fun i hi => ?_
      have hik : i < k := List.mem_range.mp hi
      have hip : i * p ≤ data.length := hpre i hik
      have e1 : (i + 1) * p = i * p + p := by ring
      simp only [Function.comp, List.length_take, List.length_drop, e1]
      omega
    · intro i hik
      have hlt : i < k := by omega
      have hip : (i + 1) * p ≤ data.length := hpre (i + 1) (by omega)
      have e1 : (i + 1) * p = i * p + p := by ring
      simp only [chunkSizes, List.getElem?_map, List.getElem?_range hlt,
        Option.map_some']
      refine congrArg some ?_
      rw [Nat.min_eq_left hip]
      omega
    · intro hk
      obtain ⟨j, rfl⟩ : ∃ j, k = j + 1 := ⟨k - 1, by omega⟩
      have e1 : (j + 1) * p = j * p + p := by ring
      constructor
      · simp only [chunkSizes, Nat.add_sub_cancel, List.getElem?_map,
          List.getElem?_range (show j < j + 1 by omega)]
        rfl
      · simp only [Nat.add_sub_cancel, e1]
        omega
  · intro resps
    rw [collectEtags, collectEtags_go]
    simp
  · intro resps
    rw [collectEtags, collectEtags_go]
    simp [commitEtagsField]

/-- Witness for C5 at a 2-byte file, 2 URLs, perSize 1. -/
theorem c5_upload_chunking_witness :
    uploadChunks [6, 7] 2 1 = some [[6], [7]] ∧
    chunkSizes 12000000 5000000 3 = [5000000, 5000000, 2000000] := by
  obtain ⟨hmain, -, -, hex⟩ := c5_upload_chunking
  obtain ⟨hspec, -, -, -⟩ := hmain [6, 7] 2 1 (by decide)
  exact ⟨by rw [hspec]; rfl, hex⟩

/-- C9: the chunk computation of `upload()` is total exactly under the
precondition i·perSize ≤ fileLength for every URL index i (the upper slice
bound is clamped, the lower is not); with 3 upload URLs, perSize 1 and a
1-byte file (3 > ceil(1/1) = 1 URLs), the slice lower bound exceeds its
upper bound and the run has no defined result. -/
theorem c9_upload_totality :
    (∀ (data : List Nat) (k perSize : Nat),
      (uploadChunks data k perSize).isSome ↔
        ∀ i < k, i * perSize ≤ data.length) ∧
    uploadChunks [0] 3 1 = none := by
  constructor
  · intro data k p
    constructor
    · intro hsome i hik
      by_contra hbad
      rw [uploadChunks, uploadChunksAux_eq_none data p k 0
        ⟨i, hik, by simpa using by omega⟩] at hsome
      simp at hsome
    · intro hall
      rw [uploadChunks, uploadChunksAux_eq_some data p k 0
        (fun t ht => by simpa using hall t ht)]
      rfl
  · rfl

/-- Witness for C9: a 2-byte file with 2 URLs of perSize 1 satisfies the
precondition, so the chunk computation is defined. -/
theorem c9_upload_totality_witness :
    (uploadChunks [6, 7] 2 1).isSome := by
  exact (c9_upload_totality.1 [6, 7] 2 1).mpr (by decide)

/-- C6: `pollResult` performs at most 500 attempts; a run in which the first
500 responses all continue (code 0, state neither 4 nor 3) times out; an
attempt with state 4 returns the parsed ASRResult; state 3 fails with the
service remark, or the generic message when the remark is empty; any other
state continues polling. -/
theorem c6_poll_result :
    (∀ f : Nat → PollResp, pollAttempts f ≤ 500) ∧
    (∀ f : Nat → PollResp, (∀ i < 500, pollContinues (f i)) →
      pollResultRun f = .timeout) ∧
    (∀ (f : Nat → PollResp) (j : Nat) (r : ASRResult), j < 500 →
      (∀ i < j, pollContinues (f i)) →
      (f j).code = 0 → (f j).state = 4 → (f j).resultParse = some r →
      pollResultRun f = .done r) ∧
    (∀ (f : Nat → PollResp) (j : Nat), j < 500 →
      (∀ i < j, pollContinues (f i)) →
      (f j).code = 0 → (f j).state = 3 →
      pollResultRun f = .failed
        (if (f j).remark = "" then genericFailRemark else (f j).remark)) := by
  refine ⟨?_, ?_, ?_, ?_⟩
  · intro f
    exact pollAttemptsAux_le f 500 0
  · intro f hcont
    rw [pollResultRun, pollAux_skip f 500 500 0 (by omega)
      (fun t ht => by simpa using hcont t ht)]
    rfl
  · intro f j r hj hcont hcode hstate hparse
    rw [pollResultRun, pollAux_skip f j 500 0 (by omega)
      (fun t ht => by simpa using hcont t ht)]
    have e : 500 - j = (499 - j) + 1 := by omega
    rw [e]
    simp only [pollAux, Nat.zero_add]
    rw [if_neg (by simp [hcode]), if_pos hstate, hparse]
  · intro f j hj hcont hcode hstate
    rw [pollResultRun, pollAux_skip f j 500 0 (by omega)
      (fun t ht => by simpa using hcont t ht)]
    have e : 500 - j = (499 - j) + 1 := by omega
    rw [e]
    simp only [pollAux, Nat.zero_add]
    rw [if_neg (by simp [hcode]), if_neg (by simp [hstate]), if_pos hstate]

/-- Witness for C6: a stream of state-1 responses times out; a stream whose
second response is state 4 with a parsed result returns it; a stream whose
first response is state 3 with empty remark fails with the generic message. -/
theorem c6_poll_result_witness :
    pollResultRun (fun _ => ⟨0, "", 1, "", none⟩) = PollOutcome.timeout ∧
    pollResultRun (fun i => if i = 0 then ⟨0, "", 1, "", none⟩
      else ⟨0, "", 4, "", some ⟨[]⟩⟩) = PollOutcome.done ⟨[]⟩ ∧
    pollResultRun (fun _ => ⟨0, "", 3, "", none⟩) =
      PollOutcome.failed genericFailRemark := by
  obtain ⟨hatt, htime, hdone, hfail⟩ := c6_poll_result
  refine ⟨htime _ (fun i _ => ⟨rfl, by decide, by decide⟩), ?_, ?_⟩
  · refine hdone _ 1 ⟨[]⟩ (by omega) (fun i hi => ?_) (by decide) (by decide)
      (by decide)
    have : i = 0 := by omega
    subst this
    exact ⟨rfl, by decide, by decide⟩
  · have h := hfail (fun _ => (⟨0, "", 3, "", none⟩ : PollResp)) 0 (by omega)
      (fun i hi => absurd hi (by omega)) rfl rfl
    simpa using h

/-- C10: `Run()` invokes audio extraction exactly when the lowercased
extension of the input path lies outside the fixed set {.mp3, .wav, .flac,
.m4a, .ogg, .aac, .wma}; for an extension in the set the file is passed
through with format tag the extension minus its leading dot; in particular
a file named with extension .m4a bypasses extraction while a .mp4 name does
not. -/
theorem c10_run_dispatch :
    (∀ path : String,
      (runDispatch path = .extract ↔
        audioExts.contains (asciiToLower (fpExt path)) = false)) ∧
    (∀ path : String,
      audioExts.contains (asciiToLower (fpExt path)) = true →
      runDispatch path = .passthrough (stripLeadingDot (asciiToLower (fpExt path)))) ∧
    runDispatch "video.m4a" = RunStep.passthrough "m4a" ∧
    runDispatch "clip.mp4" = RunStep.extract := by
  refine ⟨?_, ?_, by decide, by decide⟩
  · intro path
    by_cases h : audioExts.contains (asciiToLower (fpExt path))
    · simp [runDispatch, h]
    · simp [runDispatch, h]
  · intro path h
    have hm : asciiToLower (fpExt path) ∈ audioExts := by simpa using h
    simp [runDispatch, hm]

/-- Witness for C10 at path "x.WAV": the lowercased extension ".wav" is in
the set, so the file is passed through with format "wav". -/
theorem c10_run_dispatch_witness :
    runDispatch "x.WAV" = RunStep.passthrough "wav" := by
  obtain ⟨-, hpass, -, -⟩ := c10_run_dispatch
  have h := hpass "x.WAV" (by decide)
  rw [h]
  rfl

/-- C7: `toText` concatenates the utterances' transcripts in stored order
with exactly one newline between consecutive utterances and no trailing
newline; on transcripts "a", "b", "c" it returns "a\nb\nc". -/
theorem c7_to_text :
    (∀ r : ASRResult,
      toText r = specJoinNewlines (r.utterances.map (·.transcript))) ∧
    toText ⟨[⟨"a", 0, 0⟩, ⟨"b", 0, 0⟩, ⟨"c", 0, 0⟩]⟩ = "a\nb\nc" := by
  constructor
  · intro r
    exact toTextAux_eq r.utterances 0 r.utterances.length (by omega)
  · rfl
